import Mathlib

/-!
Shallow embedding of the floor-monitoring repository's tracking and alerting
core (`app/tracking_system.py`, `app/alert_manager.py`, the per-camera loop
body of `app/main.py:process_cameras`).

Modelling conventions:
* timestamps (`datetime.now()`) are `Nat` values passed explicitly to every
  operation that reads the clock;
* pixel coordinates are `Int`; Euclidean distances are represented by their
  squares in `Nat` (`scipy.spatial.distance.cdist` produces real distances,
  but the code only ever compares distances with each other and with
  `max_distance`, and `d ≤ d'` iff `d² ≤ d'²` for nonnegative reals, so the
  squared matrix together with the squared threshold `max_distance²` is an
  order-faithful embedding);
* `float` confidences are carried as opaque `Nat`s (the tracker only copies
  them, never computes with them);
* Python's insertion-ordered `dict` is an association list; mutation of
  `self.objects[tracking_id]` is a pointwise transformation of the unique
  entry with that key.
-/

/-- `app/detection_engine.py` `Detection` (fields in source order). -/
structure Detection where
  bbox : Int × Int × Int × Int
  confidence : Nat
  center : Int × Int
  frame_id : Nat
deriving DecidableEq, Repr

instance : Inhabited Detection := ⟨⟨(0, 0, 0, 0), 0, (0, 0), 0⟩⟩

/-- `app/tracking_system.py` `TrackedPerson` (fields in source order). -/
structure TrackedPerson where
  tracking_id : Nat
  employee_id : Option String := none
  centroid : Int × Int := (0, 0)
  bbox : Int × Int × Int × Int := (0, 0, 0, 0)
  first_seen : Nat
  last_seen : Nat
  disappeared_frames : Nat := 0
  is_active : Bool := true
  camera_id : String := ""
  confidence : Nat := 0
deriving DecidableEq, Repr

/-- Squared Euclidean distance between two points (see module comment:
order-faithful stand-in for the real distance computed by `cdist`). -/
def distSq (p q : Int × Int) : Nat :=
  ((p.1 - q.1) ^ 2 + (p.2 - q.2) ^ 2).toNat

/-- `np.min` over one row of the distance matrix (rows are nonempty in
`update`, there is at least one detection; the `0` default is never hit). -/
def rowMin : List Nat → Nat
  | [] => 0
  | x :: xs => xs.foldl min x

/-- `np.argmin` over one row: the first index attaining the minimum. -/
def argmin (row : List Nat) : Nat :=
  row.indexOf (rowMin row)

/-- The key order used to model `np.argsort` on the vector of row minima:
indices compared by (value, index) lexicographically.  `argsort` returns the
indices that would sort the array; we take the stable reading (ties keep the
original index order), which is the reading the surrounding code relies on. -/
def keyLe (v : List Nat) (i j : Nat) : Prop :=
  v.getD i 0 < v.getD j 0 ∨ (v.getD i 0 = v.getD j 0 ∧ i ≤ j)

instance (v : List Nat) (i j : Nat) : Decidable (keyLe v i j) := by
  unfold keyLe; infer_instance

instance (v : List Nat) : IsTotal Nat (keyLe v) where
  total i j := by
    unfold keyLe
    rcases Nat.lt_trichotomy (v.getD i 0) (v.getD j 0) with h | h | h
    · exact Or.inl (Or.inl h)
    · rcases Nat.le_total i j with hij | hij
      · exact Or.inl (Or.inr ⟨h, hij⟩)
      · exact Or.inr (Or.inr ⟨h.symm, hij⟩)
    · exact Or.inr (Or.inl h)

instance (v : List Nat) : IsTrans Nat (keyLe v) where
  trans i j k hij hjk := by
    unfold keyLe at *
    rcases hij with h | ⟨he, hle⟩ <;> rcases hjk with h' | ⟨he', hle'⟩
    · exact Or.inl (h.trans h')
    · exact Or.inl (he' ▸ h)
    · exact Or.inl (he ▸ h')
    · exact Or.inr ⟨he.trans he', hle.trans hle'⟩

instance (v : List Nat) : IsAntisymm Nat (keyLe v) where
  antisymm i j hij hji := by
    unfold keyLe at *
    rcases hij with h | ⟨he, hle⟩ <;> rcases hji with h' | ⟨he', hle'⟩
    · exact absurd (h.trans h') (lt_irrefl _)
    · exact absurd h (he' ▸ lt_irrefl _)
    · exact absurd h' (he ▸ lt_irrefl _)
    · exact Nat.le_antisymm hle hle'

/-- Model of `D.min(axis=1).argsort()` applied to `v = D.min(axis=1)`:
the indices `0, …, v.length - 1` sorted by their value (stably). -/
def argsortKey (v : List Nat) : List Nat :=
  List.insertionSort (keyLe v) (List.range v.length)

/-- The matching loop of `CentroidTracker.update`
(`tracking_system.py:121-149`): `rows = D.min(axis=1).argsort()`,
`cols = D.argmin(axis=1)[rows]`, then one pass over `zip(rows, cols)`
with `used_rows` / `used_cols` sets, skipping pairs whose squared distance
exceeds the squared threshold.  Returns the assigned (row, col) pairs in
assignment order. -/
def matchPairs (D : List (List Nat)) (maxDistSq : Nat) : List (Nat × Nat) :=
  let mins := D.map rowMin
  let rows := argsortKey mins
  let cols := rows.map (fun r => argmin (D.getD r []))
  let final := (rows.zip cols).foldl
    (fun (st : List (Nat × Nat) × List Nat × List Nat) rc =>
      if rc.1 ∈ st.2.1 ∨ rc.2 ∈ st.2.2 then st
      else if maxDistSq < (D.getD rc.1 []).getD rc.2 0 then st
      else (st.1 ++ [rc], st.2.1 ++ [rc.1], st.2.2 ++ [rc.2]))
    ([], [], [])
  final.1

/-- `app/tracking_system.py` `CentroidTracker` (constructor state:
`next_object_id = 1`, empty `objects`; `max_distance` is carried squared). -/
structure CentroidTracker where
  next_object_id : Nat := 1
  objects : List (Nat × TrackedPerson) := []
  max_disappeared : Nat := 30
  max_distance_sq : Nat := 2500
deriving DecidableEq, Repr

/-- `CentroidTracker.register`: allocate `next_object_id`, increment the
counter, append the fresh `TrackedPerson` (`first_seen`/`last_seen` default
to the current time). -/
def CentroidTracker.register (t : CentroidTracker) (centroid : Int × Int)
    (bbox : Int × Int × Int × Int) (confidence : Nat) (camera_id : String)
    (now : Nat) : CentroidTracker :=
  let p : TrackedPerson :=
    { tracking_id := t.next_object_id
      centroid := centroid
      bbox := bbox
      confidence := confidence
      camera_id := camera_id
      first_seen := now
      last_seen := now }
  { t with
    next_object_id := t.next_object_id + 1
    objects := t.objects ++ [(t.next_object_id, p)] }

/-- `CentroidTracker.deregister`: mark the entry with this id inactive
(the entry is kept in the dict for history). -/
def CentroidTracker.deregister (t : CentroidTracker) (tracking_id : Nat) :
    CentroidTracker :=
  { t with
    objects := t.objects.map (fun kv =>
      if kv.1 = tracking_id then (kv.1, { kv.2 with is_active := false })
      else kv) }

/-- One entry's effect in the empty-detections branch of `update`
(`tracking_system.py:89-101`): every active person on this camera gets
`disappeared_frames += 1`, `last_seen = now`, and is deregistered once the
count exceeds `max_disappeared`. -/
def markDisappeared (max_disappeared : Nat) (camera_id : String) (now : Nat)
    (kv : Nat × TrackedPerson) : Nat × TrackedPerson :=
  if kv.2.is_active = true ∧ kv.2.camera_id = camera_id then
    let p := { kv.2 with
      disappeared_frames := kv.2.disappeared_frames + 1
      last_seen := now }
    (kv.1, if max_disappeared < p.disappeared_frames then
      { p with is_active := false } else p)
  else kv

/-- One entry's effect in the matching branch of `update`
(`tracking_system.py:129-160`).  The Python loops mutate
`self.objects[tracking_id]` for pairwise-distinct tracking ids (matched rows
are distinct by `used_rows`, unmatched rows are the remaining distinct rows),
so the net effect on each dict entry is pointwise: an active entry for this
camera sits at row `object_ids.indexOf id` of the matrix; if that row was
assigned a column, copy that detection's data and reset the counter, else
increment the counter and possibly deregister.  Entries that are inactive or
belong to another camera are untouched. -/
def stepEntry (object_ids : List Nat) (pairs : List (Nat × Nat))
    (detections : List Detection) (max_disappeared : Nat) (now : Nat)
    (kv : Nat × TrackedPerson) : Nat × TrackedPerson :=
  if kv.1 ∈ object_ids then
    let r := object_ids.indexOf kv.1
    match pairs.find? (fun rc => rc.1 = r) with
    | some rc =>
        let d := detections.getD rc.2 default
        (kv.1, { kv.2 with
          centroid := d.center
          bbox := d.bbox
          confidence := d.confidence
          disappeared_frames := 0
          last_seen := now })
    | none =>
        let p := { kv.2 with
          disappeared_frames := kv.2.disappeared_frames + 1
          last_seen := now }
        (kv.1, if max_disappeared < p.disappeared_frames then
          { p with is_active := false } else p)
  else kv

/-- The dict-comprehension filter `update` and `get_active_persons` both
use: active entries of this camera, in insertion order. -/
def activeFor (t : CentroidTracker) (camera_id : String) :
    List (Nat × TrackedPerson) :=
  t.objects.filter
    (fun kv => kv.2.is_active = true ∧ kv.2.camera_id = camera_id)

/-- `D = dist.cdist(object_centroids, input_centroids)`, squared (see the
module comment). -/
def distMatrix (active : List (Nat × TrackedPerson))
    (detections : List Detection) : List (List Nat) :=
  active.map (fun kv => detections.map (fun d => distSq kv.2.centroid d.center))

/-- `CentroidTracker.update` (`tracking_system.py:78-168`). -/
def CentroidTracker.update (t : CentroidTracker) (detections : List Detection)
    (camera_id : String) (now : Nat) : CentroidTracker :=
  if detections = [] then
    { t with objects :=
        t.objects.map (markDisappeared t.max_disappeared camera_id now) }
  else
    let active := activeFor t camera_id
    if active = [] then
      detections.foldl
        (fun acc d => acc.register d.center d.bbox d.confidence camera_id now) t
    else
      let object_ids := active.map (·.1)
      let D := distMatrix active detections
      let pairs := matchPairs D t.max_distance_sq
      let objs1 := t.objects.map
        (stepEntry object_ids pairs detections t.max_disappeared now)
      let t1 := { t with objects := objs1 }
      let unused_cols := (List.range detections.length).filter
        (fun c => ¬ (pairs.any (fun rc => rc.2 = c)))
      unused_cols.foldl
        (fun acc c =>
          let d := detections.getD c default
          acc.register d.center d.bbox d.confidence camera_id now) t1

/-- `CentroidTracker.get_active_persons` (the `camera_id = None` default is
the `none` case). -/
def CentroidTracker.get_active_persons (t : CentroidTracker)
    (camera_id : Option String) : List (Nat × TrackedPerson) :=
  match camera_id with
  | some c => activeFor t c
  | none => t.objects.filter (fun kv => kv.2.is_active = true)

/-- `self.objects.get(tracking_id)` (`CentroidTracker.get_person`). -/
def CentroidTracker.get_person (t : CentroidTracker) (tracking_id : Nat) :
    Option TrackedPerson :=
  (t.objects.find? (fun kv => kv.1 = tracking_id)).map (·.2)

/-- `app/tracking_system.py` `TrackingManager` (the optional face-recognition
engine only ever fills in `employee_id`, a field no claim computes with, and
is disabled here: `face_recognition_engine = None`). -/
structure TrackingManager where
  trackers : List (String × CentroidTracker) := []
deriving DecidableEq, Repr

/-- `TrackingManager.get_tracker`: get or create the per-camera tracker.
A fresh tracker is built from `config.TRACKING_MAX_DISAPPEARED = 30` and
`config.TRACKING_MAX_DISTANCE = 50` (squared: `2500`). -/
def TrackingManager.get_tracker (tm : TrackingManager) (camera_id : String) :
    CentroidTracker :=
  match tm.trackers.find? (fun kv => kv.1 = camera_id) with
  | some kv => kv.2
  | none => {}

/-- State effect of `TrackingManager.get_tracker` on the `trackers` map:
insert a fresh tracker when the camera is unknown. -/
def TrackingManager.ensure_tracker (tm : TrackingManager)
    (camera_id : String) : TrackingManager :=
  if tm.trackers.any (fun kv => kv.1 = camera_id) then tm
  else { tm with trackers := tm.trackers ++ [(camera_id, {})] }

/-- `TrackingManager.update` (face recognition disabled, see above):
delegate to the camera's tracker. -/
def TrackingManager.update (tm : TrackingManager) (camera_id : String)
    (detections : List Detection) (now : Nat) : TrackingManager :=
  let tm1 := tm.ensure_tracker camera_id
  { tm1 with trackers := tm1.trackers.map (fun kv =>
      if kv.1 = camera_id then
        (kv.1, kv.2.update detections camera_id now)
      else kv) }

/-- `TrackingManager.get_newly_left_persons`
(`tracking_system.py:255-267`): inactive persons of this camera whose frozen
counter equals `max_disappeared + 1`. -/
def TrackingManager.get_newly_left_persons (tm : TrackingManager)
    (camera_id : String) : List TrackedPerson :=
  let tracker := tm.get_tracker camera_id
  (tracker.objects.filter (fun kv =>
      kv.2.is_active = false ∧ kv.2.camera_id = camera_id ∧
        kv.2.disappeared_frames = tracker.max_disappeared + 1)).map (·.2)

/-- `app/alert_manager.py` `Alert.__init__`: `alert_time` is
`left_at + timeout_minutes` (time in minutes), `triggered` and
`acknowledged` start `False`. -/
structure Alert where
  tracking_id : Nat
  employee_id : String
  left_at : Nat
  timeout_minutes : Nat
  alert_time : Nat
  triggered : Bool
  acknowledged : Bool
deriving DecidableEq, Repr

/-- The `Alert` constructor. -/
def Alert.make (tracking_id : Nat) (employee_id : String) (left_at : Nat)
    (timeout_minutes : Nat) : Alert :=
  { tracking_id := tracking_id
    employee_id := employee_id
    left_at := left_at
    timeout_minutes := timeout_minutes
    alert_time := left_at + timeout_minutes
    triggered := false
    acknowledged := false }

/-- `Alert.should_trigger` (`alert_manager.py:43-45`). -/
def Alert.should_trigger (a : Alert) (now : Nat) : Bool :=
  !a.triggered && decide (a.alert_time ≤ now)

/-- `app/alert_manager.py` `AlertManager` in-memory state
(`pending_alerts : tracking_id -> Alert`; the database, notification and
sound side effects of `_trigger_alert` are captured by the list of alerts a
`_check_alerts` cycle fires, returned alongside the new state). -/
structure AlertManager where
  timeout_minutes : Nat := 20
  pending_alerts : List (Nat × Alert) := []
deriving DecidableEq, Repr

/-- `AlertManager.add_pending_alert` (`alert_manager.py:92-115`): no-op if an
alert for this tracking id is already pending, else create one from the
person's `last_seen`. -/
def AlertManager.add_pending_alert (am : AlertManager) (person : TrackedPerson) :
    AlertManager :=
  if am.pending_alerts.any (fun kv => kv.1 = person.tracking_id) then am
  else
    let alert := Alert.make person.tracking_id
      (person.employee_id.getD "Unknown") person.last_seen am.timeout_minutes
    { am with pending_alerts :=
        am.pending_alerts ++ [(person.tracking_id, alert)] }

/-- `AlertManager.cancel_alert` (`alert_manager.py:117-129`): delete the
pending entry only when it exists and has not triggered. -/
def AlertManager.cancel_alert (am : AlertManager) (tracking_id : Nat) :
    AlertManager :=
  match am.pending_alerts.find? (fun kv => kv.1 = tracking_id) with
  | some kv =>
      if kv.2.triggered = false then
        { am with pending_alerts :=
            am.pending_alerts.eraseP (fun e => e.1 = tracking_id) }
      else am
  | none => am

/-- One `_check_alerts` cycle (`alert_manager.py:141-161`): collect the
alerts whose `should_trigger` holds, then `_trigger_alert` each — set
`triggered = True`, record to the database, notify observers.  The second
component is the list of alerts fired this cycle (in their post-trigger
state, as the callbacks observe them); each fired alert stays in
`pending_alerts`. -/
def AlertManager.check_alerts (am : AlertManager) (now : Nat) :
    AlertManager × List Alert :=
  let fired := (am.pending_alerts.filter
      (fun kv => kv.2.should_trigger now)).map
    (fun kv => { kv.2 with triggered := true })
  ({ am with pending_alerts := am.pending_alerts.map (fun kv =>
      if kv.2.should_trigger now then (kv.1, { kv.2 with triggered := true })
      else kv) }, fired)

/-- `self.pending_alerts` lookup by tracking id. -/
def AlertManager.lookup (am : AlertManager) (tracking_id : Nat) :
    Option Alert :=
  (am.pending_alerts.find? (fun kv => kv.1 = tracking_id)).map (·.2)

/-- `AlertManager.acknowledge_alert` (`alert_manager.py:234-245`): if the
tracking id has a pending entry, set `acknowledged = True` (regardless of
`triggered`); otherwise do nothing. -/
def AlertManager.acknowledge_alert (am : AlertManager) (tracking_id : Nat) :
    AlertManager :=
  if am.pending_alerts.any (fun kv => kv.1 = tracking_id) then
    { am with pending_alerts := am.pending_alerts.map (fun kv =>
        if kv.1 = tracking_id then (kv.1, { kv.2 with acknowledged := true })
        else kv) }
  else am

/-- Combined pipeline/evaluator state for `app/main.py`. -/
structure SysState where
  tm : TrackingManager
  am : AlertManager
deriving DecidableEq, Repr

/-- The per-camera body of `process_cameras` (`main.py:46-88`) for one
processed frame: update tracking with this frame's detections, then feed
every person from `get_newly_left_persons` to
`alert_manager.add_pending_alert` (the `db.log_entry` / `db.log_exit` /
websocket calls touch neither the tracking nor the alert state). -/
def pipelineStep (s : SysState) (camera_id : String)
    (detections : List Detection) (now : Nat) : SysState :=
  let tm1 := s.tm.update camera_id detections now
  let left := tm1.get_newly_left_persons camera_id
  { tm := tm1, am := left.foldl (fun am p => am.add_pending_alert p) s.am }

/-- One step of the whole system: either one pipeline pass over one camera
frame, or one evaluator cycle of the alert monitor thread. -/
inductive SysEvent where
  | frame (camera_id : String) (detections : List Detection) (now : Nat)
  | evaluator (now : Nat)
deriving Repr

/-- Run a sequence of system steps (`_check_alerts`'s fired list is only a
side channel; the evaluator keeps the resulting state). -/
def sysRun (s : SysState) : List SysEvent → SysState
  | [] => s
  | SysEvent.frame c d n :: rest =>
      sysRun (pipelineStep s c d n) rest
  | SysEvent.evaluator n :: rest =>
      sysRun { s with am := (s.am.check_alerts n).1 } rest

/-- All (row, col) index pairs of a matrix. -/
def allPairs (D : List (List Nat)) : List (Nat × Nat) :=
  (List.range D.length).flatMap
    (fun r => (List.range (D.getD r []).length).map (fun c => (r, c)))

/-- Entry lookup in the (squared) distance matrix. -/
def entry (D : List (List Nat)) (rc : Nat × Nat) : Nat :=
  (D.getD rc.1 []).getD rc.2 0

/-- Modelled from the spec: the reference global greedy assignment the spec
describes for `CentroidTracker.update` — "repeatedly pick the globally
smallest remaining distance whose row (existing identity) and column
(detection) are both unused; assign it only if the distance is ≤
`maxDistance`; mark row and column used and continue until no eligible pair
remains", with distance ties broken by detection input order (then by row).
Defined for the refinement comparison with `matchPairs`. -/
def greedyStep (D : List (List Nat)) (cand : List (Nat × Nat)) :
    Option (Nat × Nat) :=
  cand.foldl
    (fun best rc =>
      match best with
      | none => some rc
      | some b =>
          if entry D rc < entry D b ∨
              (entry D rc = entry D b ∧
                (rc.2 < b.2 ∨ (rc.2 = b.2 ∧ rc.1 < b.1))) then
            some rc
          else some b)
    none

/-- Modelled from the spec: the recursion of the global greedy reference
(`fuel` bounds the number of assignments; `allPairs.length` is enough). -/
def greedyAux (D : List (List Nat)) (maxDistSq : Nat) :
    Nat → List (Nat × Nat) → List (Nat × Nat) → List (Nat × Nat)
  | 0, _, acc => acc
  | fuel + 1, cand, acc =>
      match greedyStep D cand with
      | none => acc
      | some rc =>
          let rest := cand.filter (fun p => p.1 ≠ rc.1 ∧ p.2 ≠ rc.2)
          if maxDistSq < entry D rc then acc
          else greedyAux D maxDistSq fuel rest (acc ++ [rc])

/-- Modelled from the spec: the global greedy assignment of the spec's
algorithm description (see `greedyStep`). -/
def greedyPairs (D : List (List Nat)) (maxDistSq : Nat) : List (Nat × Nat) :=
  greedyAux D maxDistSq (allPairs D).length (allPairs D) []

/-- The `keyLe`-least element of `x :: xs` (earliest index on equal values):
reference selection primitive for the amended row-greedy description. -/
def leastK (v : List Nat) (x : Nat) (xs : List Nat) : Nat :=
  xs.foldl (fun b i => if v.getD i 0 < v.getD b 0 then i else b) x

/-- The `leastK` selection always picks an element of the list. -/
theorem leastK_mem (v : List Nat) (x : Nat) (xs : List Nat) :
    leastK v x xs ∈ x :: xs := by
  unfold leastK
  induction xs generalizing x with
  | nil => simp
  | cons i rest ih =>
      simp only [List.foldl_cons]
      by_cases h : v.getD i 0 < v.getD x 0
      · simp only [h, if_pos]
        have := ih i
        simp only [List.mem_cons] at this ⊢
        tauto
      · simp only [h, if_neg, not_false_iff]
        have := ih x
        simp only [List.mem_cons] at this ⊢
        tauto

/-- The amended reference algorithm for the matching step of
`CentroidTracker.update`: repeatedly pick the remaining identity (row) whose
nearest-detection distance is smallest (earliest row on ties); it proposes
its nearest detection (earliest on ties); assign the pair iff that detection
is unused and the distance is within the threshold; in either case the row
is not reconsidered. -/
def rowGreedyAux (D : List (List Nat)) (maxDistSq : Nat) (mins : List Nat) :
    List Nat → List Nat → List (Nat × Nat) → List (Nat × Nat)
  | [], _, assigned => assigned
  | x :: xs, usedCols, assigned =>
      let r := leastK mins x xs
      let c := argmin (D.getD r [])
      let rest := (x :: xs).erase r
      if c ∈ usedCols ∨ maxDistSq < (D.getD r []).getD c 0 then
        rowGreedyAux D maxDistSq mins rest usedCols assigned
      else
        rowGreedyAux D maxDistSq mins rest (usedCols ++ [c])
          (assigned ++ [(r, c)])
  termination_by l => l.length
  decreasing_by
    all_goals
      have hm : leastK mins x xs ∈ x :: xs := leastK_mem mins x xs
      have := List.length_erase_of_mem hm
      simp only [this, List.length_cons]
      omega

/-- The amended reference algorithm, run on all rows of the matrix. -/
def rowGreedyPairs (D : List (List Nat)) (maxDistSq : Nat) :
    List (Nat × Nat) :=
  rowGreedyAux D maxDistSq (D.map rowMin) (List.range D.length) [] []

/-! Concrete scenario values used by counterexamples and witnesses. -/

/-- A detection at the origin. -/
def detOrigin : Detection :=
  { bbox := (0, 0, 0, 0), confidence := 9, center := (0, 0), frame_id := 0 }

/-- A detection at `(1, 0)` (close to the origin). -/
def detNear : Detection :=
  { bbox := (1, 1, 1, 1), confidence := 7, center := (1, 0), frame_id := 1 }

/-- A detection at `(30, 0)` (distance 30 ≤ 50 from the origin). -/
def detMid : Detection :=
  { bbox := (2, 2, 2, 2), confidence := 6, center := (30, 0), frame_id := 1 }

/-- A detection at `(1000, 0)` (far beyond `max_distance`). -/
def detFar : Detection :=
  { bbox := (3, 3, 3, 3), confidence := 5, center := (1000, 0), frame_id := 2 }

/-- A freshly seen person with tracking id 1 at the origin on `"cam1"`. -/
def personOne : TrackedPerson :=
  { tracking_id := 1, first_seen := 0, last_seen := 0, camera_id := "cam1" }

/-- A tracker holding exactly `personOne`, with `max_disappeared = 1`. -/
def trackerOne : CentroidTracker :=
  { next_object_id := 2, objects := [(1, personOne)],
    max_disappeared := 1, max_distance_sq := 2500 }

/-- The two-identity tracker of the C1 scenario: persons at `(0, 0)` and
`(4, 0)`, built by one `update` call on a fresh tracker. -/
def trackerPair : CentroidTracker :=
  CentroidTracker.update {} [detOrigin,
    { bbox := (0, 0, 0, 0), confidence := 8, center := (4, 0), frame_id := 0 }]
    "cam1" 0

/-- `C1`, counterexample.  The spec's reference algorithm is the *global*
greedy: with identities at `(0, 0)` and `(4, 0)` and detections at `(1, 0)`
and `(30, 0)` (squared distance matrix `[[1, 900], [9, 676]]`, threshold
`50² = 2500`), the global greedy assigns both pairs `(0,0)` and `(1,1)`, but
the code's matching — each identity proposes only its nearest detection —
assigns only `(0,0)`: identity 1's nearest detection (column 0) is already
used, and the code never falls back to its second-nearest.  The second
identity is left unmatched by `update` (`disappeared_frames` becomes 1) and
the second detection registers a new identity instead. -/
theorem C1_counterexample :
    matchPairs (distMatrix (activeFor trackerPair "cam1") [detNear, detMid])
        trackerPair.max_distance_sq = [(0, 0)] ∧
      greedyPairs (distMatrix (activeFor trackerPair "cam1")
        [detNear, detMid]) trackerPair.max_distance_sq = [(0, 0), (1, 1)] ∧
      (CentroidTracker.get_person
          (trackerPair.update [detNear, detMid] "cam1" 1) 2).map
          (fun p => (p.disappeared_frames, p.centroid)) = some (1, (4, 0)) := by
  decide

/-- `C2`, counterexample.  Each camera's tracker has its own
`next_object_id` counter starting at 1, so the first identity registered on
`"cam1"` and the first identity registered on `"cam2"` — two distinct
`TrackedPerson`s — both carry `trackingId = 1`. -/
theorem C2_counterexample :
    let tm := (TrackingManager.update {} "cam1" [detOrigin] 0).update
      "cam2" [detOrigin] 0
    ((tm.get_tracker "cam1").get_person 1).map
        (fun p => (p.tracking_id, p.camera_id, p.is_active)) =
      some (1, "cam1", true) ∧
    ((tm.get_tracker "cam2").get_person 1).map
        (fun p => (p.tracking_id, p.camera_id, p.is_active)) =
      some (1, "cam2", true) := by
  decide

/-- `C3`: the code is level-triggered, not edge-triggered.  With
`max_disappeared = 1`, the sole person departs on the second consecutive
empty update (counter 2 = `max_disappeared + 1`).  The call to
`get_newly_left_persons` right after that update reports the departure — and
so does the call after the *next* empty update (and after every later one),
because the counter of an inactive person is never advanced past
`max_disappeared + 1`, contradicting the spec's "for this call only". -/
theorem C3_departed_reported_again :
    let tm : TrackingManager := { trackers := [("cam1", trackerOne)] }
    let afterDeparture := (tm.update "cam1" [] 1).update "cam1" [] 2
    let oneCallLater := afterDeparture.update "cam1" [] 3
    (afterDeparture.get_newly_left_persons "cam1").map (·.tracking_id) =
        [1] ∧
      (oneCallLater.get_newly_left_persons "cam1").map (·.tracking_id) =
        [1] := by
  decide

/-- `C4`, counterexample.  `acknowledge_alert` sets `acknowledged` on *any*
pending alert, triggered or not: acknowledging a pending, not-yet-triggered
alert is not a no-op (the repository's own `test_acknowledge_alert` exercises
exactly this behaviour). -/
theorem C4_counterexample :
    let am := AlertManager.add_pending_alert {} personOne
    am.lookup 1 = some (Alert.make 1 "Unknown" 0 20) ∧
      (Alert.make 1 "Unknown" 0 20).triggered = false ∧
      (am.acknowledge_alert 1).lookup 1 =
        some { Alert.make 1 "Unknown" 0 20 with acknowledged := true } ∧
      am.acknowledge_alert 1 ≠ am := by
  decide

/-- `C9`, counterexample.  An active identity left unmatched (here: the only
detection is 1000 pixels away, far beyond `max_distance = 50`) does *not*
keep its `last_seen`: the code sets `last_seen` to the time of the update
call (`tracking_system.py:157`), while centroid, bounding box and confidence
are indeed unchanged. -/
theorem C9_counterexample :
    personOne.last_seen = 0 ∧
      ((trackerOne.update [detFar] "cam1" 5).get_person 1).map
          (fun p => p.last_seen) = some 5 := by
  decide

/-! Association-list helpers shared by the tracker and alert proofs.
Python dicts have pairwise-distinct keys; the `Nodup` facts below are the
Lean-side counterpart. -/

/-- A key-preserving transformation commutes with `find?`-by-key. -/
theorem find_key_map {β : Type} (l : List (Nat × β)) (f : Nat × β → Nat × β)
    (hf : ∀ kv, (f kv).1 = kv.1) (id : Nat) :
    (l.map f).find? (fun kv => kv.1 = id) =
      (l.find? (fun kv => kv.1 = id)).map f := by
  induction l with
  | nil => rfl
  | cons kv rest ih =>
      by_cases hk : kv.1 = id
      · simp [List.find?_cons, hf, hk]
      · simp [List.find?_cons, hf, hk, ih]

/-- A key-preserving transformation leaves the key list unchanged. -/
theorem keys_map_eq {β : Type} (l : List (Nat × β)) (f : Nat × β → Nat × β)
    (hf : ∀ kv, (f kv).1 = kv.1) :
    (l.map f).map (fun kv => kv.1) = l.map (fun kv => kv.1) := by
  rw [List.map_map]
  exact List.map_congr_left (fun kv _ => hf kv)

/-- With pairwise-distinct keys, a key determines its entry. -/
theorem lookup_of_mem_nodup {β : Type} {l : List (Nat × β)}
    (hnd : (l.map (fun kv => kv.1)).Nodup) {i : Nat} {b : β}
    (hm : (i, b) ∈ l) :
    l.find? (fun kv => kv.1 = i) = some (i, b) := by
  induction l with
  | nil => cases hm
  | cons kv rest ih =>
      simp only [List.map_cons, List.nodup_cons] at hnd
      rcases List.mem_cons.mp hm with heq | hmem
      · subst heq
        simp [List.find?_cons]
      · have hne : kv.1 ≠ i := by
          intro hcontra
          exact hnd.1 (hcontra ▸ List.mem_map.mpr ⟨(i, b), hmem, rfl⟩)
        have hd : (decide (kv.1 = i)) = false := by simp [hne]
        simp only [List.find?_cons, hd]
        exact ih hnd.2 hmem

/-- With pairwise-distinct keys, a predicate that forces key `i` and holds
on the (unique) entry `(i, b)` counts exactly one entry. -/
theorem countP_unique_key {β : Type} {l : List (Nat × β)}
    (hnd : (l.map (fun kv => kv.1)).Nodup) {i : Nat} {b : β}
    (hm : (i, b) ∈ l) (p : Nat × β → Bool)
    (hforce : ∀ kv ∈ l, p kv = true → kv.1 = i) (hpb : p (i, b) = true) :
    l.countP p = 1 := by
  induction l with
  | nil => cases hm
  | cons kv rest ih =>
      simp only [List.map_cons, List.nodup_cons] at hnd
      rcases List.mem_cons.mp hm with heq | hmem
      · subst heq
        rw [List.countP_cons, hpb]
        have hz : rest.countP p = 0 := by
          rw [List.countP_eq_zero]
          intro kv hkv hpkv
          exact hnd.1 (hforce kv (List.mem_cons_of_mem _ hkv) hpkv ▸
            List.mem_map.mpr ⟨kv, hkv, rfl⟩)
        simp [hz]
      · have hne : kv.1 ≠ i := by
          intro hcontra
          exact hnd.1 (hcontra ▸ List.mem_map.mpr ⟨(i, b), hmem, rfl⟩)
        rw [List.countP_cons]
        have hpkv : p kv = false := by
          rcases h : p kv with _ | _
          · rfl
          · exact absurd (hforce kv (List.mem_cons_self _ _) h) hne
        rw [hpkv]
        simpa using ih hnd.2 hmem
          (fun e he hpe => hforce e (List.mem_cons_of_mem _ he) hpe)

/-- `C4`, amended.  `acknowledge_alert` is a no-op exactly when the tracking
id has no pending entry; when an entry exists it gets `acknowledged := true`
whatever its `triggered` flag, and every entry with a different key is
untouched. -/
theorem C4_amended_acknowledge_regardless (am : AlertManager) (id : Nat) :
    (am.lookup id = none → am.acknowledge_alert id = am) ∧
      (∀ i a, (i, a) ∈ am.pending_alerts →
        (i ≠ id → (i, a) ∈ (am.acknowledge_alert id).pending_alerts) ∧
        (i = id →
          (i, { a with acknowledged := true }) ∈
            (am.acknowledge_alert id).pending_alerts)) := by
  constructor
  · intro hnone
    unfold AlertManager.acknowledge_alert
    rw [if_neg]
    intro hany
    rcases List.any_eq_true.mp hany with ⟨kv, hkv, hk⟩
    have : am.pending_alerts.find? (fun kv => kv.1 = id) = none := by
      simpa [AlertManager.lookup, Option.map_eq_none] using hnone
    exact absurd hk (by simpa using List.find?_eq_none.mp this kv hkv)
  · intro i a hm
    unfold AlertManager.acknowledge_alert
    by_cases hany : am.pending_alerts.any (fun kv => decide (kv.1 = id))
    · rw [if_pos hany]
      constructor
      · intro hne
        have := List.mem_map_of_mem
          (fun kv => if kv.1 = id then
            (kv.1, { kv.2 with acknowledged := true }) else kv) hm
        simpa [hne] using this
      · intro heq
        subst heq
        have := List.mem_map_of_mem
          (fun kv => if kv.1 = i then
            (kv.1, { kv.2 with acknowledged := true }) else kv) hm
        simpa using this
    · rw [if_neg hany]
      refine ⟨fun _ => hm, fun heq => ?_⟩
      subst heq
      exact absurd (List.any_eq_true.mpr ⟨(i, a), hm, by simp⟩) hany

/-- `C4` amended, witness at a concrete state: a pending untriggered alert
for id 1 gets acknowledged, and an unknown id 2 is a no-op. -/
theorem C4_amended_witness :
    let am := AlertManager.add_pending_alert {} personOne
    ((1 : Nat), { Alert.make 1 "Unknown" 0 20 with acknowledged := true }) ∈
        (am.acknowledge_alert 1).pending_alerts ∧
      am.acknowledge_alert 2 = am := by
  intro am
  constructor
  · exact ((C4_amended_acknowledge_regardless am 1).2 1
      (Alert.make 1 "Unknown" 0 20) (by decide)).2 rfl
  · exact (C4_amended_acknowledge_regardless am 2).1 (by decide)

/-- Well-formedness of the `AlertManager` state, true in every reachable
state: keys are pairwise distinct (it is a Python dict) and every alert is
stored under its own tracking id (`add_pending_alert` keys the dict by
`person.tracking_id`, which it also writes into the alert). -/
def amWf (am : AlertManager) : Prop :=
  (am.pending_alerts.map (fun kv => kv.1)).Nodup ∧
    ∀ kv ∈ am.pending_alerts, kv.2.tracking_id = kv.1

/-- A sequence of `_check_alerts` evaluator cycles; the second component
accumulates every alert fired by any of the cycles. -/
def checkRun (am : AlertManager) : List Nat → AlertManager × List Alert
  | [] => (am, [])
  | n :: rest =>
      let c := am.check_alerts n
      let later := checkRun c.1 rest
      (later.1, c.2 ++ later.2)

/-- One evaluator cycle transforms the looked-up alert pointwise. -/
theorem check_lookup (am : AlertManager) (n : Nat) (id : Nat) :
    (am.check_alerts n).1.lookup id = (am.lookup id).map
      (fun b => if b.should_trigger n then { b with triggered := true }
        else b) := by
  unfold AlertManager.lookup AlertManager.check_alerts
  rw [find_key_map _ _
    (by intro kv; by_cases h : kv.2.should_trigger n <;> simp [h])]
  cases h : am.pending_alerts.find? (fun kv => kv.1 = id) with
  | none => simp
  | some kv =>
      by_cases hst : kv.2.should_trigger n <;> simp [hst]

/-- The pending map after one evaluator cycle, explicitly. -/
theorem check_pending (am : AlertManager) (n : Nat) :
    (am.check_alerts n).1.pending_alerts = am.pending_alerts.map
      (fun kv => if kv.2.should_trigger n then
        (kv.1, { kv.2 with triggered := true }) else kv) := rfl

/-- The fired list of one evaluator cycle, explicitly. -/
theorem check_fired (am : AlertManager) (n : Nat) :
    (am.check_alerts n).2 = (am.pending_alerts.filter
        (fun kv => kv.2.should_trigger n)).map
      (fun kv => { kv.2 with triggered := true }) := rfl

/-- One evaluator cycle preserves the state well-formedness. -/
theorem check_wf (am : AlertManager) (n : Nat) (h : amWf am) :
    amWf (am.check_alerts n).1 := by
  obtain ⟨hnd, hid⟩ := h
  constructor
  · rw [check_pending, keys_map_eq _ _
      (by intro kv; by_cases hst : kv.2.should_trigger n <;> simp [hst])]
    exact hnd
  · intro kv hkv
    rw [check_pending] at hkv
    rcases List.mem_map.mp hkv with ⟨kv0, hkv0, hfe⟩
    subst hfe
    by_cases hst : kv0.2.should_trigger n <;> simpa [hst] using hid kv0 hkv0

/-- An already-triggered alert survives every later evaluator cycle
unchanged and is never fired again. -/
theorem checkRun_keep (id : Nat) (a : Alert) (htrig : a.triggered = true) :
    ∀ (nows : List Nat) (am : AlertManager), amWf am →
      am.lookup id = some a →
      (checkRun am nows).1.lookup id = some a ∧
        a ∉ (checkRun am nows).2 := by
  intro nows
  induction nows with
  | nil => exact fun am _ hl => ⟨hl, by simp [checkRun]⟩
  | cons n rest ih =>
      intro am hwf hl
      have hst : a.should_trigger n = false := by
        simp [Alert.should_trigger, htrig]
      have hl1 : (am.check_alerts n).1.lookup id = some a := by
        rw [check_lookup, hl]
        simp [hst]
      have hid : a.tracking_id = id := by
        rcases hfind : am.pending_alerts.find? (fun kv => kv.1 = id) with
          _ | kv0
        · simp [AlertManager.lookup, hfind] at hl
        · have hk0 : kv0.1 = id := by
            simpa using List.find?_some hfind
          have hm0 : kv0 ∈ am.pending_alerts :=
            List.mem_of_find?_eq_some hfind
          have hv0 : kv0.2 = a := by
            simp [AlertManager.lookup, hfind] at hl
            exact hl
          rw [← hv0, hwf.2 kv0 hm0, hk0]
      have hnotfired : a ∉ (am.check_alerts n).2 := by
        intro hmem
        rw [check_fired] at hmem
        rcases List.mem_map.mp hmem with ⟨kv, hkv, hfe⟩
        rcases List.mem_filter.mp hkv with ⟨hkvmem, hkvst⟩
        have hkid : kv.1 = id := by
          rw [← hwf.2 kv hkvmem]
          have hta : kv.2.tracking_id = a.tracking_id := by
            rw [← hfe]
          rw [hta, hid]
        have hkv2 : (kv.1, kv.2) ∈ am.pending_alerts := by
          simpa using hkvmem
        have hfind := lookup_of_mem_nodup hwf.1 hkv2
        rw [hkid] at hfind
        have hv : kv.2 = a := by
          simp [AlertManager.lookup, hfind] at hl
          exact hl
        rw [hv] at hkvst
        simp [Alert.should_trigger, htrig] at hkvst
      have := ih (am.check_alerts n).1 (check_wf am n hwf) hl1
      refine ⟨by simpa [checkRun] using this.1, ?_⟩
      simp only [checkRun, List.mem_append]
      rintro (h | h)
      · exact hnotfired h
      · exact this.2 h

/-- A successful lookup comes from a pending entry under that key. -/
theorem mem_of_lookup (am : AlertManager) (id : Nat) (a : Alert)
    (hl : am.lookup id = some a) : (id, a) ∈ am.pending_alerts := by
  rcases hfind : am.pending_alerts.find? (fun kv => kv.1 = id) with _ | kv
  · simp [AlertManager.lookup, hfind] at hl
  · have hk : kv.1 = id := by simpa using List.find?_some hfind
    have hm : kv ∈ am.pending_alerts := List.mem_of_find?_eq_some hfind
    have hv : kv.2 = a := by
      simp [AlertManager.lookup, hfind] at hl
      exact hl
    rw [← hk, ← hv]
    simpa using hm

/-- `C5`: a pending, untriggered alert whose `fireAt` has passed is fired by
the evaluator cycle exactly once — it appears exactly once in that cycle's
fired list (one database record / observer fan-out), stays in the pending
set with `triggered = true`, and no sequence of later evaluator cycles ever
fires it again or removes it. -/
theorem C5_trigger_exactly_once (am : AlertManager) (id : Nat) (a : Alert)
    (now : Nat) (nows : List Nat) (hwf : amWf am)
    (hl : am.lookup id = some a) (htrig : a.triggered = false)
    (htime : a.alert_time ≤ now) :
    ({ a with triggered := true } ∈ (am.check_alerts now).2) ∧
      (am.check_alerts now).2.count { a with triggered := true } = 1 ∧
      (am.check_alerts now).1.lookup id =
        some { a with triggered := true } ∧
      (checkRun (am.check_alerts now).1 nows).1.lookup id =
        some { a with triggered := true } ∧
      { a with triggered := true } ∉
        (checkRun (am.check_alerts now).1 nows).2 := by
  have hmem : (id, a) ∈ am.pending_alerts := mem_of_lookup am id a hl
  have hst : a.should_trigger now = true := by
    simp [Alert.should_trigger, htrig, htime]
  have haid : a.tracking_id = id := hwf.2 (id, a) hmem
  have hlook1 : (am.check_alerts now).1.lookup id =
      some { a with triggered := true } := by
    rw [check_lookup, hl]
    simp [hst]
  have hrun := checkRun_keep id { a with triggered := true } rfl nows
    (am.check_alerts now).1 (check_wf am now hwf) hlook1
  refine ⟨?_, ?_, hlook1, hrun.1, hrun.2⟩
  · rw [check_fired]
    exact List.mem_map_of_mem _ (List.mem_filter.mpr ⟨hmem, hst⟩)
  · rw [check_fired, List.count_eq_countP, List.countP_map,
      List.countP_filter]
    apply countP_unique_key hwf.1 hmem
    · intro kv hkv hp
      simp only [Function.comp, Bool.and_eq_true, beq_iff_eq] at hp
      have heq : ({ kv.2 with triggered := true } : Alert) =
          { a with triggered := true } := hp.1
      have hta : kv.2.tracking_id = a.tracking_id := by
        have hfields := congrArg Alert.tracking_id heq
        simpa using hfields
      rw [← hwf.2 kv hkv, hta, haid]
    · simp [Function.comp, hst]

/-- `C5`, witness: concrete pending alert with `fireAt = 20`, evaluator
cycles at times 25 (fires once), then 30 and 40 (fire nothing more). -/
theorem C5_witness :
    let am := AlertManager.add_pending_alert {} personOne
    let a := Alert.make 1 "Unknown" 0 20
    ({ a with triggered := true } ∈ (am.check_alerts 25).2) ∧
      (am.check_alerts 25).2.count { a with triggered := true } = 1 ∧
      (am.check_alerts 25).1.lookup 1 =
        some { a with triggered := true } ∧
      (checkRun (am.check_alerts 25).1 [30, 40]).1.lookup 1 =
        some { a with triggered := true } ∧
      { a with triggered := true } ∉
        (checkRun (am.check_alerts 25).1 [30, 40]).2 :=
  C5_trigger_exactly_once (AlertManager.add_pending_alert {} personOne) 1
    (Alert.make 1 "Unknown" 0 20) 25 [30, 40]
    (by constructor <;> decide) (by decide) (by decide) (by decide)

/-- After erasing the entry with a given key from a distinct-key list, no
entry with that key can be found any more. -/
theorem find_eraseP_self {β : Type} (l : List (Nat × β)) (id : Nat)
    (hnd : (l.map (fun kv => kv.1)).Nodup) :
    (l.eraseP (fun kv => kv.1 = id)).find? (fun kv => kv.1 = id) = none := by
  induction l with
  | nil => rfl
  | cons kv rest ih =>
      simp only [List.map_cons, List.nodup_cons] at hnd
      by_cases hk : kv.1 = id
      · have hd : (decide (kv.1 = id)) = true := by simpa using hk
        simp only [List.eraseP_cons, hd, cond_true]
        rw [List.find?_eq_none]
        intro e he
        simp only [decide_eq_true_eq]
        intro hek
        exact hnd.1 ((hk.trans hek.symm) ▸ List.mem_map.mpr ⟨e, he, rfl⟩)
      · have hd : (decide (kv.1 = id)) = false := by simpa using hk
        simp only [List.eraseP_cons, hd, cond_false, List.find?_cons]
        exact ih hnd.2

/-- `C8`: semantics of `cancel_alert`.  It deletes the pending entry exactly
when one exists and has not triggered (leaving every other entry in place),
it leaves an already-triggered alert — and the rest of the state — entirely
untouched, it is a no-op on an unknown tracking id, and
`add_pending_alert` immediately followed by `cancel_alert` for the same
(previously absent) tracking id restores the original state exactly: in
particular from an empty state the pair leaves zero pending and zero
triggered alerts. -/
theorem C8_cancel_semantics (am : AlertManager) (id : Nat)
    (person : TrackedPerson) (hwf : amWf am) :
    (am.lookup id = none → am.cancel_alert id = am) ∧
      (∀ a, am.lookup id = some a → a.triggered = true →
        am.cancel_alert id = am) ∧
      (∀ a, am.lookup id = some a → a.triggered = false →
        (am.cancel_alert id).lookup id = none ∧
          ∀ kv ∈ am.pending_alerts, kv.1 ≠ id →
            kv ∈ (am.cancel_alert id).pending_alerts) ∧
      (person.tracking_id = id → am.lookup id = none →
        (am.add_pending_alert person).cancel_alert id = am) := by
  refine ⟨?_, ?_, ?_, ?_⟩
  · intro hnone
    have hfind : am.pending_alerts.find? (fun kv => kv.1 = id) = none := by
      simpa [AlertManager.lookup, Option.map_eq_none] using hnone
    simp [AlertManager.cancel_alert, hfind]
  · intro a hl htrig
    rcases hfind : am.pending_alerts.find? (fun kv => kv.1 = id) with _ | kv
    · simp [AlertManager.lookup, hfind] at hl
    · have hv : kv.2 = a := by
        simp [AlertManager.lookup, hfind] at hl
        exact hl
      simp [AlertManager.cancel_alert, hfind, hv, htrig]
  · intro a hl htrig
    rcases hfind : am.pending_alerts.find? (fun kv => kv.1 = id) with _ | kv
    · simp [AlertManager.lookup, hfind] at hl
    · have hv : kv.2 = a := by
        simp [AlertManager.lookup, hfind] at hl
        exact hl
      have hcancel : (am.cancel_alert id).pending_alerts =
          am.pending_alerts.eraseP (fun kv => kv.1 = id) := by
        simp [AlertManager.cancel_alert, hfind, hv, htrig]
      constructor
      · rw [AlertManager.lookup, hcancel, find_eraseP_self _ _ hwf.1]
        rfl
      · intro kv0 hkv0 hne
        rw [hcancel]
        exact (List.mem_eraseP_of_neg (by simpa using hne)).mpr hkv0
  · intro hpid hnone
    have hfind : am.pending_alerts.find? (fun kv => kv.1 = id) = none := by
      simpa [AlertManager.lookup, Option.map_eq_none] using hnone
    have hany : am.pending_alerts.any
        (fun kv => kv.1 = person.tracking_id) = false := by
      rw [hpid]
      rw [Bool.eq_false_iff]
      intro hcontra
      rcases List.any_eq_true.mp hcontra with ⟨kv, hkv, hk⟩
      exact absurd hk (by simpa using List.find?_eq_none.mp hfind kv hkv)
    have hadd : (am.add_pending_alert person).pending_alerts =
        am.pending_alerts ++ [(person.tracking_id,
          Alert.make person.tracking_id (person.employee_id.getD "Unknown")
            person.last_seen am.timeout_minutes)] := by
      simp [AlertManager.add_pending_alert, hany]
    have hfind2 : (am.add_pending_alert person).pending_alerts.find?
        (fun kv => kv.1 = id) = some (person.tracking_id,
          Alert.make person.tracking_id (person.employee_id.getD "Unknown")
            person.last_seen am.timeout_minutes) := by
      rw [hadd, List.find?_append, hfind]
      simp [hpid]
    have htimeout : (am.add_pending_alert person).timeout_minutes =
        am.timeout_minutes := by
      unfold AlertManager.add_pending_alert
      by_cases h : am.pending_alerts.any
          (fun kv => kv.1 = person.tracking_id) <;> simp [h]
    have herase : (am.add_pending_alert person).pending_alerts.eraseP
        (fun kv => kv.1 = id) = am.pending_alerts := by
      rw [hadd, List.eraseP_append_right _
        (fun b hb => by simpa using List.find?_eq_none.mp hfind b hb)]
      simp [List.eraseP_cons, hpid]
    simp only [AlertManager.cancel_alert, hfind2]
    rw [if_pos (show (Alert.make person.tracking_id
      (person.employee_id.getD "Unknown") person.last_seen
      am.timeout_minutes).triggered = false from rfl)]
    rw [herase]
    have heta : ∀ (x : AlertManager) (l : List (Nat × Alert)),
        ({ x with pending_alerts := l } : AlertManager) =
          ⟨x.timeout_minutes, l⟩ := fun x l => rfl
    rw [heta, htimeout]

/-- `C8`, witness: departure then immediate return on an empty manager
leaves the state exactly as it started — zero pending, zero triggered. -/
theorem C8_witness :
    (AlertManager.add_pending_alert {} personOne).cancel_alert 1 =
        ({} : AlertManager) ∧
      ((AlertManager.add_pending_alert {} personOne).cancel_alert
        1).pending_alerts = [] := by
  have h := (C8_cancel_semantics {} 1 personOne
    (by constructor <;> decide)).2.2.2 (by decide) (by decide)
  exact ⟨h, by rw [h]⟩

/-- `add_pending_alert` never removes or changes an existing entry. -/
theorem add_keeps_mem (am : AlertManager) (p : TrackedPerson)
    (kv : Nat × Alert) (h : kv ∈ am.pending_alerts) :
    kv ∈ (am.add_pending_alert p).pending_alerts := by
  unfold AlertManager.add_pending_alert
  by_cases hany : am.pending_alerts.any (fun e => e.1 = p.tracking_id)
  · rw [if_pos hany]
    exact h
  · rw [if_neg hany]
    exact List.mem_append_left _ h

/-- Folding `add_pending_alert` over any list of departed persons never
removes or changes an existing entry. -/
theorem addFold_keeps_mem (ps : List TrackedPerson) :
    ∀ (am : AlertManager) (kv : Nat × Alert), kv ∈ am.pending_alerts →
      kv ∈ (ps.foldl (fun a q => a.add_pending_alert q)
        am).pending_alerts := by
  induction ps with
  | nil => exact fun am kv h => h
  | cons p rest ih =>
      intro am kv h
      exact ih _ kv (add_keeps_mem am p kv h)

/-- Along any interleaving of pipeline passes and evaluator cycles, an
existing pending entry keeps its key; its value is either the original alert
or the original alert with `triggered` set. -/
theorem sysRun_keeps (id : Nat) (a : Alert) :
    ∀ (events : List SysEvent) (s : SysState) (b : Alert),
      (id, b) ∈ s.am.pending_alerts →
      (b = a ∨ b = { a with triggered := true }) →
      ∃ c, (id, c) ∈ (sysRun s events).am.pending_alerts ∧
        (c = a ∨ c = { a with triggered := true }) := by
  intro events
  induction events with
  | nil => exact fun s b hb hc => ⟨b, hb, hc⟩
  | cons e rest ih =>
      intro s b hb hc
      cases e with
      | frame cam dets n =>
          refine ih (pipelineStep s cam dets n) b ?_ hc
          exact addFold_keeps_mem _ s.am (id, b) hb
      | evaluator n =>
          refine ih _ (if b.should_trigger n then
            { b with triggered := true } else b) ?_ ?_
          · show _ ∈ ((s.am.check_alerts n).1).pending_alerts
            rw [check_pending]
            have := List.mem_map_of_mem (fun kv =>
              if kv.2.should_trigger n then
                (kv.1, { kv.2 with triggered := true }) else kv) hb
            by_cases hst : b.should_trigger n <;> simpa [hst] using this
          · rcases hc with hc | hc
            · subst hc
              by_cases hst : b.should_trigger n <;> simp [hst]
            · subst hc
              by_cases hst : ({ a with triggered := true } :
                  Alert).should_trigger n <;> simp [hst]

/-- `C10`: the pipeline loop contains no cancellation.  Along every run of
the integrated system — any interleaving of `process_cameras` passes
(tracking update followed by `add_pending_alert` for each newly departed
person) and evaluator cycles — a pending alert, once created, is never
removed from the pending set: its entry survives every step, at most with
its `triggered` flag set by the evaluator.  The `cancel_alert` path is never
taken. -/
theorem C10_pipeline_never_cancels (s : SysState) (events : List SysEvent)
    (id : Nat) (a : Alert) (h : (id, a) ∈ s.am.pending_alerts) :
    ∃ c, (id, c) ∈ (sysRun s events).am.pending_alerts ∧
      (c = a ∨ c = { a with triggered := true }) :=
  sysRun_keeps id a events s a h (Or.inl rfl)

/-- `C10`, witness: a concrete pending alert survives a frame pass and an
evaluator cycle. -/
theorem C10_witness :
    ∃ c, (1, c) ∈ (sysRun
        { tm := {}, am := AlertManager.add_pending_alert {} personOne }
        [SysEvent.frame "cam1" [detOrigin] 1, SysEvent.evaluator 25]
      ).am.pending_alerts ∧
      (c = Alert.make 1 "Unknown" 0 20 ∨
        c = { Alert.make 1 "Unknown" 0 20 with triggered := true }) :=
  C10_pipeline_never_cancels
    { tm := {}, am := AlertManager.add_pending_alert {} personOne }
    [SysEvent.frame "cam1" [detOrigin] 1, SysEvent.evaluator 25]
    1 (Alert.make 1 "Unknown" 0 20) (by decide)

/-- A sequence of consecutive empty-detection `update` calls (one `Nat`
timestamp per call). -/
def iterEmpty (t : CentroidTracker) (camera_id : String) :
    List Nat → CentroidTracker
  | [] => t
  | n :: rest => iterEmpty (t.update [] camera_id n) camera_id rest

/-- An empty update on a single-entry tracker acts pointwise on the entry. -/
theorem update_empty_single (t : CentroidTracker) (i : Nat)
    (p : TrackedPerson) (cam : String) (now : Nat)
    (h : t.objects = [(i, p)]) :
    t.update [] cam now = { t with
      objects := [markDisappeared t.max_disappeared cam now (i, p)] } := by
  unfold CentroidTracker.update
  rw [if_pos rfl, h]
  rfl

/-- Once inactive, the sole entry of a single-entry tracker is never touched
again by empty updates. -/
theorem iterEmpty_single_inactive (cam : String) (i : Nat) :
    ∀ (ts : List Nat) (t : CentroidTracker) (p : TrackedPerson),
      t.objects = [(i, p)] → p.is_active = false →
      (iterEmpty t cam ts).objects = [(i, p)] := by
  intro ts
  induction ts with
  | nil => exact fun t p h _ => h
  | cons n rest ih =>
      intro t p h hin
      show (iterEmpty (t.update [] cam n) cam rest).objects = [(i, p)]
      refine ih _ p ?_ hin
      rw [update_empty_single t i p cam n h]
      simp [markDisappeared, hin]

/-- While the counter stays within `max_disappeared`, empty updates keep the
sole person active and the counter counts the empty frames. -/
theorem iterEmpty_single_active (cam : String) (i : Nat) :
    ∀ (ts : List Nat) (t : CentroidTracker) (p : TrackedPerson),
      t.objects = [(i, p)] → p.is_active = true → p.camera_id = cam →
      p.disappeared_frames + ts.length ≤ t.max_disappeared →
      ∃ q, (iterEmpty t cam ts).objects = [(i, q)] ∧ q.is_active = true ∧
        q.disappeared_frames = p.disappeared_frames + ts.length ∧
        q.camera_id = cam := by
  intro ts
  induction ts with
  | nil => exact fun t p h hact hcam _ => ⟨p, h, hact, by simp, hcam⟩
  | cons n rest ih =>
      intro t p h hact hcam hle
      simp only [List.length_cons] at hle
      have hstep : (t.update [] cam n).objects = [(i, { p with
          disappeared_frames := p.disappeared_frames + 1,
          last_seen := n })] := by
        rw [update_empty_single t i p cam n h]
        have hnot : ¬ t.max_disappeared < p.disappeared_frames + 1 := by
          omega
        simp [markDisappeared, hact, hcam, hnot]
      have hmd : (t.update [] cam n).max_disappeared = t.max_disappeared := by
        rw [update_empty_single t i p cam n h]
      obtain ⟨q, hq, hqa, hqd, hqc⟩ := ih (t.update [] cam n) _ hstep
        (by simp [hact]) (by simp [hcam]) (by simp [hmd]; omega)
      refine ⟨q, hq, hqa, ?_, hqc⟩
      simp only [List.length_cons]
      simp at hqd
      omega

/-- Once the number of empty frames pushes the counter past
`max_disappeared`, the sole person is deregistered with the counter frozen
at `max_disappeared + 1`. -/
theorem iterEmpty_single_depart (cam : String) (i : Nat) :
    ∀ (ts : List Nat) (t : CentroidTracker) (p : TrackedPerson),
      t.objects = [(i, p)] → p.is_active = true → p.camera_id = cam →
      p.disappeared_frames ≤ t.max_disappeared →
      t.max_disappeared < p.disappeared_frames + ts.length →
      ∃ q, (iterEmpty t cam ts).objects = [(i, q)] ∧ q.is_active = false ∧
        q.disappeared_frames = t.max_disappeared + 1 ∧
        q.camera_id = cam := by
  intro ts
  induction ts with
  | nil =>
      intro t p _ _ _ hle hlt
      simp only [List.length_nil] at hlt
      omega
  | cons n rest ih =>
      intro t p h hact hcam hle hlt
      simp only [List.length_cons] at hlt
      by_cases hcross : t.max_disappeared < p.disappeared_frames + 1
      · -- the person departs on this very update
        have hdm : p.disappeared_frames = t.max_disappeared := by omega
        have hstep : (t.update [] cam n).objects = [(i, { p with
            disappeared_frames := p.disappeared_frames + 1,
            last_seen := n, is_active := false })] := by
          rw [update_empty_single t i p cam n h]
          simp [markDisappeared, hact, hcam, hcross]
        refine ⟨_, iterEmpty_single_inactive cam i rest _ _ hstep rfl,
          rfl, ?_, ?_⟩
        · simp [hdm]
        · simp [hcam]
      · have hstep : (t.update [] cam n).objects = [(i, { p with
            disappeared_frames := p.disappeared_frames + 1,
            last_seen := n })] := by
          rw [update_empty_single t i p cam n h]
          simp [markDisappeared, hact, hcam, hcross]
        have hmd : (t.update [] cam n).max_disappeared =
            t.max_disappeared := by
          rw [update_empty_single t i p cam n h]
        obtain ⟨q, hq, hqa, hqd, hqc⟩ := ih (t.update [] cam n) _ hstep
          (by simp [hact]) (by simp [hcam]) (by simp [hmd]; omega)
          (by simp [hmd]; omega)
        exact ⟨q, hq, hqa, by rw [hqd, hmd], hqc⟩

/-- `C6`: a tracker holding exactly one freshly-seen Active identity, fed
`N` consecutive empty detection lists: for `N ≤ maxDisappeared` the identity
is still Active with counter `N` (in particular it has *not* departed on any
earlier empty update), and for `N > maxDisappeared` it is Departed with the
counter frozen at `maxDisappeared + 1` — the transition happened exactly
once, on empty update number `maxDisappeared + 1` — and the count of active
persons on the camera is 0. -/
theorem C6_departure_at_max_plus_one (t : CentroidTracker) (i : Nat)
    (p : TrackedPerson) (cam : String) (ts : List Nat)
    (hobj : t.objects = [(i, p)]) (hact : p.is_active = true)
    (hcam : p.camera_id = cam) (hd : p.disappeared_frames = 0) :
    (ts.length ≤ t.max_disappeared →
      ∃ q, (iterEmpty t cam ts).objects = [(i, q)] ∧ q.is_active = true ∧
        q.disappeared_frames = ts.length) ∧
      (t.max_disappeared < ts.length →
        ∃ q, (iterEmpty t cam ts).objects = [(i, q)] ∧
          q.is_active = false ∧
          q.disappeared_frames = t.max_disappeared + 1 ∧
          (iterEmpty t cam ts).get_active_persons (some cam) = []) := by
  constructor
  · intro hlen
    obtain ⟨q, hq, hqa, hqd, _⟩ := iterEmpty_single_active cam i ts t p
      hobj hact hcam (by omega)
    exact ⟨q, hq, hqa, by omega⟩
  · intro hlen
    obtain ⟨q, hq, hqa, hqd, _⟩ := iterEmpty_single_depart cam i ts t p
      hobj hact hcam (by omega) (by omega)
    refine ⟨q, hq, hqa, hqd, ?_⟩
    unfold CentroidTracker.get_active_persons activeFor
    rw [hq]
    simp [hqa]

/-- `C6`, witness: with `max_disappeared = 1`, one empty update leaves the
person active with counter 1; two empty updates depart it, freeze the
counter at 2, and leave zero active persons. -/
theorem C6_witness :
    (∃ q, (iterEmpty trackerOne "cam1" [1]).objects = [(1, q)] ∧
        q.is_active = true ∧ q.disappeared_frames = 1) ∧
      (∃ q, (iterEmpty trackerOne "cam1" [1, 2]).objects = [(1, q)] ∧
        q.is_active = false ∧ q.disappeared_frames = 2 ∧
        (iterEmpty trackerOne "cam1" [1, 2]).get_active_persons
          (some "cam1") = []) := by
  constructor
  · exact (C6_departure_at_max_plus_one trackerOne 1 personOne "cam1" [1]
      rfl rfl rfl rfl).1 (by decide)
  · exact (C6_departure_at_max_plus_one trackerOne 1 personOne "cam1" [1, 2]
      rfl rfl rfl rfl).2 (by decide)

/-- Well-formedness of a tracker, true in every reachable state: keys are
pairwise distinct (it is a Python dict) and every key ever issued is below
`next_object_id`. -/
def trackerWf (t : CentroidTracker) : Prop :=
  (t.objects.map (fun kv => kv.1)).Nodup ∧
    ∀ k ∈ t.objects.map (fun kv => kv.1), k < t.next_object_id

/-- `register` appends exactly the key `next_object_id`. -/
theorem register_keys (t : CentroidTracker) (c : Int × Int)
    (b : Int × Int × Int × Int) (conf : Nat) (cam : String) (now : Nat) :
    (t.register c b conf cam now).objects.map (fun kv => kv.1) =
      t.objects.map (fun kv => kv.1) ++ [t.next_object_id] := by
  simp [CentroidTracker.register]

/-- `register` preserves well-formedness. -/
theorem register_wf (t : CentroidTracker) (c : Int × Int)
    (b : Int × Int × Int × Int) (conf : Nat) (cam : String) (now : Nat)
    (h : trackerWf t) : trackerWf (t.register c b conf cam now) := by
  obtain ⟨hnd, hub⟩ := h
  constructor
  · rw [register_keys]
    rw [List.nodup_append]
    refine ⟨hnd, List.nodup_singleton _, ?_⟩
    intro k hk hk'
    rw [List.mem_singleton] at hk'
    exact absurd (hub k hk) (by omega)
  · intro k hk
    rw [register_keys] at hk
    rcases List.mem_append.mp hk with hk | hk
    · have := hub k hk
      simp [CentroidTracker.register]
      omega
    · rw [List.mem_singleton] at hk
      simp [CentroidTracker.register, hk]

/-- Properties of a fold of `register`s over any list: well-formedness is
preserved, existing entries survive untouched, and every key of the result
is an old key or at least the starting `next_object_id`. -/
theorem foldreg_props {α : Type} (cam : String) (now : Nat)
    (cf : α → Int × Int) (bf : α → Int × Int × Int × Int) (kf : α → Nat)
    (l : List α) :
    ∀ (acc : CentroidTracker), trackerWf acc →
      trackerWf (l.foldl (fun a x =>
        a.register (cf x) (bf x) (kf x) cam now) acc) ∧
      (∀ kv ∈ acc.objects, kv ∈ (l.foldl (fun a x =>
        a.register (cf x) (bf x) (kf x) cam now) acc).objects) ∧
      (∀ k ∈ (l.foldl (fun a x =>
          a.register (cf x) (bf x) (kf x) cam now) acc).objects.map
          (fun kv => kv.1),
        k ∈ acc.objects.map (fun kv => kv.1) ∨ acc.next_object_id ≤ k) := by
  induction l with
  | nil => exact fun acc h => ⟨h, fun kv hkv => hkv, fun k hk => Or.inl hk⟩
  | cons x rest ih =>
      intro acc hacc
      have hreg := register_wf acc (cf x) (bf x) (kf x) cam now hacc
      obtain ⟨h1, h2, h3⟩ := ih (acc.register (cf x) (bf x) (kf x) cam now)
        hreg
      refine ⟨h1, ?_, ?_⟩
      · intro kv hkv
        apply h2
        simp only [CentroidTracker.register]
        exact List.mem_append_left _ hkv
      · intro k hk
        rcases h3 k hk with hk' | hk'
        · rw [register_keys] at hk'
          rcases List.mem_append.mp hk' with hk'' | hk''
          · exact Or.inl hk''
          · rw [List.mem_singleton] at hk''
            exact Or.inr (le_of_eq hk''.symm)
        · simp only [CentroidTracker.register] at hk'
          exact Or.inr (by omega)

/-- `markDisappeared` never changes the key of an entry. -/
theorem markDisappeared_fst (m : Nat) (cam : String) (now : Nat)
    (kv : Nat × TrackedPerson) :
    (markDisappeared m cam now kv).1 = kv.1 := by
  unfold markDisappeared
  split <;> rfl

/-- `stepEntry` never changes the key of an entry. -/
theorem stepEntry_fst (oids : List Nat) (pairs : List (Nat × Nat))
    (dets : List Detection) (m : Nat) (now : Nat)
    (kv : Nat × TrackedPerson) :
    (stepEntry oids pairs dets m now kv).1 = kv.1 := by
  unfold stepEntry
  by_cases h : kv.1 ∈ oids
  · rw [if_pos h]
    rcases hfind : pairs.find? (fun rc => rc.1 = oids.indexOf kv.1) with
      _ | rc <;> simp [hfind]
  · rw [if_neg h]

/-- With pairwise-distinct keys, two entries with the same key coincide. -/
theorem mem_key_eq {β : Type} {l : List (Nat × β)}
    (hnd : (l.map (fun kv => kv.1)).Nodup) {i : Nat} {b c : β}
    (hb : (i, b) ∈ l) (hc : (i, c) ∈ l) : b = c := by
  have h1 := lookup_of_mem_nodup hnd hb
  have h2 := lookup_of_mem_nodup hnd hc
  rw [h1] at h2
  exact (Prod.mk.injEq .. ▸ Option.some.inj h2).2

/-- `update`, empty-detections branch, as an equation. -/
theorem update_empty_eq (t : CentroidTracker) (cam : String) (now : Nat) :
    t.update [] cam now = { t with objects := t.objects.map (markDisappeared t.max_disappeared cam now) } := by
  unfold CentroidTracker.update
  rw [if_pos rfl]

/-- `update`, no-active-identities branch, as an equation. -/
theorem update_noactive_eq (t : CentroidTracker) (dets : List Detection)
    (cam : String) (now : Nat) (h1 : dets ≠ [])
    (h2 : activeFor t cam = []) :
    t.update dets cam now = dets.foldl (fun acc d =>
      acc.register d.center d.bbox d.confidence cam now) t := by
  unfold CentroidTracker.update
  rw [if_neg h1]
  simp only []
  rw [if_pos h2]

/-- The tracker state after the pointwise entry update of the matching
branch (before the new registrations). -/
def matchedState (t : CentroidTracker) (dets : List Detection)
    (cam : String) (now : Nat) : CentroidTracker :=
  { t with objects := t.objects.map (stepEntry ((activeFor t cam).map (fun kv => kv.1)) (matchPairs (distMatrix (activeFor t cam) dets) t.max_distance_sq) dets t.max_disappeared now) }

/-- `update`, matching branch, as an equation. -/
theorem update_match_eq (t : CentroidTracker) (dets : List Detection)
    (cam : String) (now : Nat) (h1 : dets ≠ [])
    (h2 : activeFor t cam ≠ []) :
    t.update dets cam now =
      ((List.range dets.length).filter (fun c =>
          ¬ ((matchPairs (distMatrix (activeFor t cam) dets)
            t.max_distance_sq).any (fun rc => rc.2 = c)))).foldl
        (fun acc c => acc.register (dets.getD c default).center
          (dets.getD c default).bbox (dets.getD c default).confidence cam now)
        (matchedState t dets cam now) := by
  unfold CentroidTracker.update matchedState
  rw [if_neg h1]
  simp only []
  rw [if_neg h2]

/-- The matched-state keeps the keys and the id counter of the tracker. -/
theorem matchedState_wf (t : CentroidTracker) (dets : List Detection)
    (cam : String) (now : Nat) (h : trackerWf t) :
    trackerWf (matchedState t dets cam now) := by
  constructor
  · show ((t.objects.map (stepEntry ((activeFor t cam).map (fun kv => kv.1)) (matchPairs (distMatrix (activeFor t cam) dets) t.max_distance_sq) dets t.max_disappeared now)).map (fun kv => kv.1)).Nodup
    rw [keys_map_eq _ _ (stepEntry_fst _ _ dets t.max_disappeared now)]
    exact h.1
  · show ∀ k ∈ (t.objects.map (stepEntry ((activeFor t cam).map (fun kv => kv.1)) (matchPairs (distMatrix (activeFor t cam) dets) t.max_distance_sq) dets t.max_disappeared now)).map (fun kv => kv.1), k < t.next_object_id
    rw [keys_map_eq _ _ (stepEntry_fst _ _ dets t.max_disappeared now)]
    exact h.2

/-- The matched-state has the same keys as the tracker. -/
theorem matchedState_keys (t : CentroidTracker) (dets : List Detection)
    (cam : String) (now : Nat) :
    (matchedState t dets cam now).objects.map (fun kv => kv.1) =
      t.objects.map (fun kv => kv.1) := by
  show (t.objects.map (stepEntry ((activeFor t cam).map (fun kv => kv.1)) (matchPairs (distMatrix (activeFor t cam) dets) t.max_distance_sq) dets t.max_disappeared now)).map (fun kv => kv.1) = t.objects.map (fun kv => kv.1)
  exact keys_map_eq _ _ (stepEntry_fst _ _ dets t.max_disappeared now)

/-- `update` preserves tracker well-formedness. -/
theorem update_wf (t : CentroidTracker) (dets : List Detection)
    (cam : String) (now : Nat) (h : trackerWf t) :
    trackerWf (t.update dets cam now) := by
  by_cases h1 : dets = []
  · subst h1
    rw [update_empty_eq]
    constructor
    · show ((t.objects.map (markDisappeared t.max_disappeared cam now)).map (fun kv => kv.1)).Nodup
      rw [keys_map_eq _ _ (markDisappeared_fst t.max_disappeared cam now)]
      exact h.1
    · show ∀ k ∈ (t.objects.map (markDisappeared t.max_disappeared cam now)).map (fun kv => kv.1), k < t.next_object_id
      rw [keys_map_eq _ _ (markDisappeared_fst t.max_disappeared cam now)]
      exact h.2
  · by_cases h2 : activeFor t cam = []
    · rw [update_noactive_eq t dets cam now h1 h2]
      exact (foldreg_props cam now _ _ _ dets t h).1
    · rw [update_match_eq t dets cam now h1 h2]
      exact (foldreg_props cam now _ _ _ _ _
        (matchedState_wf t dets cam now h)).1

/-- Keys that `update` adds are at least the old `next_object_id`. -/
theorem update_new_keys (t : CentroidTracker) (dets : List Detection)
    (cam : String) (now : Nat) (h : trackerWf t) :
    ∀ k ∈ (t.update dets cam now).objects.map (fun kv => kv.1),
      k ∉ t.objects.map (fun kv => kv.1) → t.next_object_id ≤ k := by
  intro k hk hnk
  by_cases h1 : dets = []
  · subst h1
    rw [update_empty_eq] at hk
    have hkeys : ((t.objects.map (markDisappeared t.max_disappeared cam now)).map (fun kv => kv.1)) = t.objects.map (fun kv => kv.1) :=
      keys_map_eq _ _ (markDisappeared_fst t.max_disappeared cam now)
    rw [show ({ t with objects := t.objects.map (markDisappeared t.max_disappeared cam now) } : CentroidTracker).objects = t.objects.map (markDisappeared t.max_disappeared cam now) from rfl, hkeys] at hk
    exact absurd hk hnk
  · by_cases h2 : activeFor t cam = []
    · rw [update_noactive_eq t dets cam now h1 h2] at hk
      rcases (foldreg_props cam now _ _ _ dets t h).2.2 k hk with hk' | hk'
      · exact absurd hk' hnk
      · exact hk'
    · rw [update_match_eq t dets cam now h1 h2] at hk
      rcases (foldreg_props cam now _ _ _ _ _
        (matchedState_wf t dets cam now h)).2.2 k hk with hk' | hk'
      · rw [matchedState_keys] at hk'
        exact absurd hk' hnk
      · exact hk'

/-- An inactive entry is completely untouched by `update`: `update` only
modifies entries that pass the active-for-this-camera filter, and new
registrations are appended. -/
theorem update_inactive_mem (t : CentroidTracker) (dets : List Detection)
    (cam : String) (now : Nat) (i : Nat) (p : TrackedPerson)
    (h : trackerWf t) (hm : (i, p) ∈ t.objects) (hin : p.is_active = false) :
    (i, p) ∈ (t.update dets cam now).objects := by
  by_cases h1 : dets = []
  · subst h1
    rw [update_empty_eq]
    show (i, p) ∈ t.objects.map (markDisappeared t.max_disappeared cam now)
    have hstep : markDisappeared t.max_disappeared cam now (i, p) = (i, p) := by
      unfold markDisappeared
      rw [if_neg]
      simp [hin]
    rw [← hstep]
    exact List.mem_map_of_mem _ hm
  · by_cases h2 : activeFor t cam = []
    · rw [update_noactive_eq t dets cam now h1 h2]
      exact (foldreg_props cam now _ _ _ dets t h).2.1 (i, p) hm
    · rw [update_match_eq t dets cam now h1 h2]
      apply (foldreg_props cam now _ _ _ _ _
        (matchedState_wf t dets cam now h)).2.1
      show (i, p) ∈ t.objects.map (stepEntry ((activeFor t cam).map (fun kv => kv.1)) (matchPairs (distMatrix (activeFor t cam) dets) t.max_distance_sq) dets t.max_disappeared now)
      have hnotin : i ∉ (activeFor t cam).map (fun kv => kv.1) := by
        intro hio
        rcases List.mem_map.mp hio with ⟨kv, hkv, hke⟩
        have hkm : kv ∈ t.objects := List.mem_of_mem_filter hkv
        have hkact : kv.2.is_active = true ∧ kv.2.camera_id = cam := by
          have := List.of_mem_filter hkv
          simpa using this
        have hkv2 : (i, kv.2) ∈ t.objects := by
          rw [← hke]
          simpa using hkm
        have : kv.2 = p := mem_key_eq h.1 hkv2 hm
        rw [this] at hkact
        rw [hkact.1] at hin
        cases hin
      have hstep : stepEntry ((activeFor t cam).map (fun kv => kv.1))
          (matchPairs (distMatrix (activeFor t cam) dets) t.max_distance_sq)
          dets t.max_disappeared now (i, p) = (i, p) := by
        unfold stepEntry
        rw [if_neg (by simpa using hnotin)]
      rw [← hstep]
      exact List.mem_map_of_mem _ hm

/-- `C2`, amended.  Within one camera's tracker, ids are pairwise distinct,
always below `next_object_id`, and every id that an `update` call adds is
strictly greater than every id the tracker has ever issued (so ids are never
reused); the well-formedness is preserved by every update. -/
theorem C2_amended_ids_unique_per_tracker (t : CentroidTracker)
    (dets : List Detection) (cam : String) (now : Nat) (h : trackerWf t) :
    trackerWf (t.update dets cam now) ∧
      ∀ k ∈ (t.update dets cam now).objects.map (fun kv => kv.1),
        k ∉ t.objects.map (fun kv => kv.1) →
        ∀ j ∈ t.objects.map (fun kv => kv.1), j < k :=
  ⟨update_wf t dets cam now h,
    fun k hk hnk j hj =>
      lt_of_lt_of_le (h.2 j hj) (update_new_keys t dets cam now h k hk hnk)⟩

/-- `C2` amended, witness: a concrete update on `trackerOne` keeps the state
well-formed and issues only fresh, strictly larger ids. -/
theorem C2_amended_witness :
    trackerWf (trackerOne.update [detFar] "cam1" 5) ∧
      ∀ k ∈ (trackerOne.update [detFar] "cam1" 5).objects.map
          (fun kv => kv.1),
        k ∉ trackerOne.objects.map (fun kv => kv.1) →
        ∀ j ∈ trackerOne.objects.map (fun kv => kv.1), j < k :=
  C2_amended_ids_unique_per_tracker trackerOne [detFar] "cam1" 5
    (by constructor <;> decide)

/-- A departed person in a concrete one-person tracker state. -/
def personDeparted : TrackedPerson :=
  { tracking_id := 1, first_seen := 0, last_seen := 2,
    disappeared_frames := 2, is_active := false, camera_id := "cam1" }

/-- A tracker whose only identity has departed. -/
def trackerDeparted : CentroidTracker :=
  { next_object_id := 2, objects := [(1, personDeparted)],
    max_disappeared := 1, max_distance_sq := 2500 }

/-- `C7`: the Departed transition is one-shot.  An inactive entry is still
present, unchanged and inactive after any further `update` call (it is never
made Active again), and every id the call issues for a new detection —
however close that detection is to the departed identity's last centroid —
is strictly greater than every id the tracker has ever issued. -/
theorem C7_departed_one_shot (t : CentroidTracker) (dets : List Detection)
    (cam : String) (now : Nat) (i : Nat) (p : TrackedPerson)
    (h : trackerWf t) (hm : (i, p) ∈ t.objects)
    (hin : p.is_active = false) :
    ((i, p) ∈ (t.update dets cam now).objects) ∧
      ∀ k ∈ (t.update dets cam now).objects.map (fun kv => kv.1),
        k ∉ t.objects.map (fun kv => kv.1) →
        ∀ j ∈ t.objects.map (fun kv => kv.1), j < k :=
  ⟨update_inactive_mem t dets cam now i p h hm hin,
    fun k hk hnk j hj =>
      lt_of_lt_of_le (h.2 j hj) (update_new_keys t dets cam now h k hk hnk)⟩

/-- `C7`, witness: a detection at the departed identity's exact last
centroid does not resurrect it — the departed entry survives unchanged and
any new id is strictly greater than id 1. -/
theorem C7_witness :
    ((1, personDeparted) ∈
        (trackerDeparted.update [detOrigin] "cam1" 3).objects) ∧
      ∀ k ∈ (trackerDeparted.update [detOrigin] "cam1" 3).objects.map
          (fun kv => kv.1),
        k ∉ trackerDeparted.objects.map (fun kv => kv.1) →
        ∀ j ∈ trackerDeparted.objects.map (fun kv => kv.1), j < k :=
  C7_departed_one_shot trackerDeparted [detOrigin] "cam1" 3 1 personDeparted
    (by constructor <;> decide) (by decide) (by decide)

/-- `C9`, amended.  In every `update` call, an existing Active identity of
this camera left unmatched — whether the detection list is empty, or none of
the assigned pairs uses its row — is transformed exactly as follows: the
disappearance counter is incremented, `last_seen` is set to the call's time,
it is deregistered iff the new counter exceeds `max_disappeared`, and its
centroid, bounding box, confidence, `first_seen` and employee fields are
unchanged. -/
theorem C9_amended_unmatched_effect (t : CentroidTracker)
    (dets : List Detection) (cam : String) (now : Nat) (i : Nat)
    (p : TrackedPerson) (h : trackerWf t) (hm : (i, p) ∈ t.objects)
    (hact : p.is_active = true) (hcam : p.camera_id = cam) :
    (dets = [] →
      ∃ q, (i, q) ∈ (t.update dets cam now).objects ∧
        q.centroid = p.centroid ∧ q.bbox = p.bbox ∧
        q.confidence = p.confidence ∧ q.first_seen = p.first_seen ∧
        q.employee_id = p.employee_id ∧
        q.disappeared_frames = p.disappeared_frames + 1 ∧
        q.last_seen = now ∧ q.camera_id = p.camera_id ∧
        q.is_active = (if t.max_disappeared < p.disappeared_frames + 1
          then false else true)) ∧
      (dets ≠ [] →
        (matchPairs (distMatrix (activeFor t cam) dets)
            t.max_distance_sq).find? (fun rc =>
              rc.1 = ((activeFor t cam).map (fun kv => kv.1)).indexOf i) =
            none →
        ∃ q, (i, q) ∈ (t.update dets cam now).objects ∧
          q.centroid = p.centroid ∧ q.bbox = p.bbox ∧
          q.confidence = p.confidence ∧ q.first_seen = p.first_seen ∧
          q.employee_id = p.employee_id ∧
          q.disappeared_frames = p.disappeared_frames + 1 ∧
          q.last_seen = now ∧ q.camera_id = p.camera_id ∧
          q.is_active = (if t.max_disappeared < p.disappeared_frames + 1
            then false else true)) := by
  constructor
  · intro h1
    subst h1
    rw [update_empty_eq]
    refine ⟨(markDisappeared t.max_disappeared cam now (i, p)).2, ?_, ?_⟩
    · show _ ∈ t.objects.map (markDisappeared t.max_disappeared cam now)
      have : markDisappeared t.max_disappeared cam now (i, p) =
          (i, (markDisappeared t.max_disappeared cam now (i, p)).2) :=
        Prod.ext (markDisappeared_fst t.max_disappeared cam now (i, p)) rfl
      rw [← this]
      exact List.mem_map_of_mem _ hm
    · unfold markDisappeared
      rw [if_pos (by exact ⟨hact, hcam⟩)]
      by_cases hth : t.max_disappeared < p.disappeared_frames + 1 <;>
        simp [hth, hact]
  · intro h1 hnone
    by_cases h2 : activeFor t cam = []
    · exfalso
      have : (i, p) ∈ activeFor t cam :=
        List.mem_filter.mpr ⟨hm, by simp [hact, hcam]⟩
      rw [h2] at this
      cases this
    · rw [update_match_eq t dets cam now h1 h2]
      have hmem_active : (i, p) ∈ activeFor t cam :=
        List.mem_filter.mpr ⟨hm, by simp [hact, hcam]⟩
      have hio : i ∈ (activeFor t cam).map (fun kv => kv.1) :=
        List.mem_map.mpr ⟨(i, p), hmem_active, rfl⟩
      have hstep : stepEntry ((activeFor t cam).map (fun kv => kv.1))
          (matchPairs (distMatrix (activeFor t cam) dets) t.max_distance_sq)
          dets t.max_disappeared now (i, p) =
          (i, (stepEntry ((activeFor t cam).map (fun kv => kv.1))
            (matchPairs (distMatrix (activeFor t cam) dets)
              t.max_distance_sq) dets t.max_disappeared now (i, p)).2) :=
        Prod.ext (stepEntry_fst ((activeFor t cam).map (fun kv => kv.1))
          (matchPairs (distMatrix (activeFor t cam) dets) t.max_distance_sq)
          dets t.max_disappeared now (i, p)) rfl
      refine ⟨(stepEntry ((activeFor t cam).map (fun kv => kv.1))
        (matchPairs (distMatrix (activeFor t cam) dets) t.max_distance_sq)
        dets t.max_disappeared now (i, p)).2, ?_, ?_⟩
      · apply (foldreg_props cam now _ _ _ _ _
          (matchedState_wf t dets cam now h)).2.1
        show _ ∈ t.objects.map (stepEntry ((activeFor t cam).map (fun kv => kv.1)) (matchPairs (distMatrix (activeFor t cam) dets) t.max_distance_sq) dets t.max_disappeared now)
        rw [← hstep]
        exact List.mem_map_of_mem _ hm
      · unfold stepEntry
        rw [if_pos (by simpa using hio)]
        simp only [hnone]
        by_cases hth : t.max_disappeared < p.disappeared_frames + 1 <;>
          simp [hth, hact]

/-- `C9` amended, witness: the sole active person, unmatched because the
only detection is 1000 px away, gets counter 1 and `last_seen = 5`, all
other fields unchanged. -/
theorem C9_amended_witness :
    ∃ q, (1, q) ∈ (trackerOne.update [detFar] "cam1" 5).objects ∧
      q.centroid = personOne.centroid ∧ q.bbox = personOne.bbox ∧
      q.confidence = personOne.confidence ∧
      q.first_seen = personOne.first_seen ∧
      q.employee_id = personOne.employee_id ∧
      q.disappeared_frames = personOne.disappeared_frames + 1 ∧
      q.last_seen = 5 ∧ q.camera_id = personOne.camera_id ∧
      q.is_active = (if trackerOne.max_disappeared <
        personOne.disappeared_frames + 1 then false else true) :=
  (C9_amended_unmatched_effect trackerOne [detFar] "cam1" 5 1 personOne
    (by constructor <;> decide) (by decide) (by decide) (by decide)).2
    (by decide) (by decide)

/-- `keyLe` is reflexive. -/
theorem keyLe_refl (v : List Nat) (i : Nat) : keyLe v i i :=
  Or.inr ⟨rfl, le_refl i⟩

/-- `keyLe` is transitive (instance access). -/
theorem keyLe_trans (v : List Nat) {a b c : Nat} (h1 : keyLe v a b)
    (h2 : keyLe v b c) : keyLe v a c :=
  IsTrans.trans a b c h1 h2

/-- On a strictly ascending candidate list, `leastK` selects a
`keyLe`-least element (value-minimal, earliest index on ties). -/
theorem leastK_least_aux (v : List Nat) :
    ∀ (xs : List Nat) (b : Nat), (∀ y ∈ xs, b < y) →
      List.Pairwise (· < ·) xs →
      keyLe v (leastK v b xs) b ∧ ∀ y ∈ xs, keyLe v (leastK v b xs) y := by
  intro xs
  induction xs with
  | nil =>
      intro b _ _
      exact ⟨keyLe_refl v b, by simp⟩
  | cons i rest ih =>
      intro b hb hpw
      rw [List.pairwise_cons] at hpw
      have hstep : leastK v b (i :: rest) =
          leastK v (if v.getD i 0 < v.getD b 0 then i else b) rest := rfl
      by_cases hvi : v.getD i 0 < v.getD b 0
      · obtain ⟨h1, h2⟩ := ih i hpw.1 hpw.2
        rw [hstep, if_pos hvi]
        refine ⟨keyLe_trans v h1 (Or.inl hvi), ?_⟩
        intro y hy
        rcases List.mem_cons.mp hy with rfl | hy
        · exact h1
        · exact h2 y hy
      · obtain ⟨h1, h2⟩ := ih b
          (fun y hy => hb y (List.mem_cons_of_mem _ hy)) hpw.2
        rw [hstep, if_neg hvi]
        refine ⟨h1, ?_⟩
        intro y hy
        rcases List.mem_cons.mp hy with rfl | hy
        · refine keyLe_trans v h1 ?_
          rcases Nat.lt_or_ge (v.getD b 0) (v.getD y 0) with h | h
          · exact Or.inl h
          · exact Or.inr ⟨le_antisymm (not_lt.mp hvi) h,
              (hb y (List.mem_cons_self _ _)).le⟩
        · exact h2 y hy

/-- Selection sort by `keyLe`: repeatedly extract the least remaining
index.  This is the recursion shape of the amended row-greedy description. -/
def selSortK (v : List Nat) : List Nat → List Nat
  | [] => []
  | x :: xs => leastK v x xs :: selSortK v ((x :: xs).erase (leastK v x xs))
  termination_by l => l.length
  decreasing_by
    all_goals
      have hm : leastK v x xs ∈ x :: xs := leastK_mem v x xs
      have := List.length_erase_of_mem hm
      simp only [this, List.length_cons]
      omega

/-- Selection sort is a permutation of its input. -/
theorem selSortK_perm (v : List Nat) :
    ∀ (l : List Nat), List.Perm (selSortK v l) l
  | [] => by simp [selSortK]
  | x :: xs => by
      have hm : leastK v x xs ∈ x :: xs := leastK_mem v x xs
      have hperm := selSortK_perm v ((x :: xs).erase (leastK v x xs))
      simp only [selSortK]
      exact (hperm.cons _).trans (List.perm_cons_erase hm).symm
  termination_by l => l.length
  decreasing_by
    all_goals
      have hm : leastK v x xs ∈ x :: xs := leastK_mem v x xs
      have := List.length_erase_of_mem hm
      simp only [this, List.length_cons]
      omega

/-- Selection sort of a strictly ascending index list is `keyLe`-sorted. -/
theorem selSortK_sorted (v : List Nat) :
    ∀ (l : List Nat), List.Pairwise (· < ·) l →
      (selSortK v l).Sorted (keyLe v)
  | [] => by
      intro _
      simp [selSortK, List.Sorted]
  | x :: xs => by
      intro hpw
      have hm : leastK v x xs ∈ x :: xs := leastK_mem v x xs
      simp only [selSortK]
      rw [List.sorted_cons]
      constructor
      · intro y hy
        have hy1 : y ∈ (x :: xs).erase (leastK v x xs) :=
          (selSortK_perm v _).mem_iff.mp hy
        have hy2 : y ∈ x :: xs := List.mem_of_mem_erase hy1
        have hleast := leastK_least_aux v xs x
          (fun z hz => List.rel_of_pairwise_cons hpw hz)
          (List.pairwise_cons.mp hpw).2
        rcases List.mem_cons.mp hy2 with rfl | hy3
        · exact hleast.1
        · exact hleast.2 y hy3
      · exact selSortK_sorted v _ (hpw.sublist (List.erase_sublist _ _))
  termination_by l => l.length
  decreasing_by
    all_goals
      have hm2 : leastK v x xs ∈ x :: xs := leastK_mem v x xs
      have := List.length_erase_of_mem hm2
      simp only [this, List.length_cons]
      omega

/-- On strictly ascending inputs the stable insertion sort and the
selection recursion produce the same list (both are `keyLe`-sorted
permutations of the input, and `keyLe` is antisymmetric). -/
theorem insertionSort_eq_selSortK (v : List Nat) (l : List Nat)
    (hl : List.Pairwise (· < ·) l) :
    List.insertionSort (keyLe v) l = selSortK v l :=
  List.eq_of_perm_of_sorted
    ((List.perm_insertionSort _ l).trans (selSortK_perm v l).symm)
    (List.sorted_insertionSort _ l) (selSortK_sorted v l hl)

/-- `argsortKey` as the selection recursion over the index range. -/
theorem argsortKey_eq (v : List Nat) :
    argsortKey v = selSortK v (List.range v.length) :=
  insertionSort_eq_selSortK v _ (List.pairwise_lt_range _)

/-- Zipping a list with its own map lists the graph pairs. -/
theorem zip_self_map {α β : Type} (f : α → β) :
    ∀ (l : List α), l.zip (l.map f) = l.map (fun a => (a, f a)) := by
  intro l
  induction l with
  | nil => rfl
  | cons x xs ih => simp [ih]

/-- The implementation's single pass over the sorted `(row, argmin-col)`
pairs with `used_rows` / `used_cols` bookkeeping computes exactly the
selection recursion of the amended row-greedy description: rows are
pairwise distinct, so the `used_rows` check never fires, and processing
rows in sorted order coincides with repeatedly extracting the least
remaining row. -/
theorem fold_eq_rowGreedy (D : List (List Nat)) (maxd : Nat)
    (mins : List Nat) :
    ∀ (l : List Nat), List.Pairwise (· < ·) l →
      ∀ (acc : List (Nat × Nat)) (usedR usedC : List Nat),
        (∀ r ∈ l, r ∉ usedR) →
        (((selSortK mins l).map (fun r => (r, argmin (D.getD r [])))).foldl
          (fun st rc =>
            if rc.1 ∈ st.2.1 ∨ rc.2 ∈ st.2.2 then st
            else if maxd < (D.getD rc.1 []).getD rc.2 0 then st
            else (st.1 ++ [rc], st.2.1 ++ [rc.1], st.2.2 ++ [rc.2]))
          (acc, usedR, usedC)).1 =
        rowGreedyAux D maxd mins l usedC acc
  | [] => by
      intro _ acc usedR usedC _
      simp [selSortK, rowGreedyAux]
  | x :: xs => by
      intro hpw acc usedR usedC hdisj
      have hm : leastK mins x xs ∈ x :: xs := leastK_mem mins x xs
      have hnd : (x :: xs).Nodup := hpw.imp (fun h => Nat.ne_of_lt h)
      have hmR : leastK mins x xs ∉ usedR := hdisj _ hm
      have hpw' : List.Pairwise (· < ·)
          ((x :: xs).erase (leastK mins x xs)) :=
        hpw.sublist (List.erase_sublist _ _)
      have hdisj' : ∀ r ∈ (x :: xs).erase (leastK mins x xs), r ∉ usedR :=
        fun r hr => hdisj r (List.mem_of_mem_erase hr)
      simp only [selSortK, rowGreedyAux, List.map_cons, List.foldl_cons]
      by_cases hc : argmin (D.getD (leastK mins x xs) []) ∈ usedC
      · rw [if_pos (Or.inr hc), if_pos (Or.inl hc)]
        exact fold_eq_rowGreedy D maxd mins _ hpw' acc usedR usedC hdisj'
      · by_cases hd : maxd < (D.getD (leastK mins x xs) []).getD
            (argmin (D.getD (leastK mins x xs) [])) 0
        · rw [if_neg (by exact not_or.mpr ⟨hmR, hc⟩), if_pos hd, if_pos (Or.inr hd)]
          exact fold_eq_rowGreedy D maxd mins _ hpw' acc usedR usedC hdisj'
        · rw [if_neg (by exact not_or.mpr ⟨hmR, hc⟩), if_neg hd,
            if_neg (by exact not_or.mpr ⟨hc, hd⟩)]
          refine fold_eq_rowGreedy D maxd mins _ hpw' _ _ _ ?_
          intro r hr
          rw [List.mem_append]
          push_neg
          refine ⟨hdisj' r hr, ?_⟩
          simp only [List.mem_singleton]
          exact ((hnd.mem_erase_iff).mp hr).1
  termination_by l => l.length
  decreasing_by
    all_goals
      have hm2 : leastK mins x xs ∈ x :: xs := leastK_mem mins x xs
      have := List.length_erase_of_mem hm2
      simp only [this, List.length_cons]
      omega

/-- The code's matching equals the amended row-greedy reference on every
(squared) distance matrix and threshold. -/
theorem matchPairs_eq_rowGreedy (D : List (List Nat)) (maxd : Nat) :
    matchPairs D maxd = rowGreedyPairs D maxd := by
  unfold matchPairs rowGreedyPairs
  simp only []
  rw [zip_self_map (fun r => argmin (D.getD r []))]
  rw [argsortKey_eq]
  have hlen : (D.map rowMin).length = D.length := by simp
  rw [hlen]
  exact fold_eq_rowGreedy D maxd (D.map rowMin) (List.range D.length)
    (List.pairwise_lt_range _) [] [] [] (by simp)

/-- `C1`, amended.  For every non-empty set of Active identities and every
non-empty detection list passed to `update`, the set of (identity,
detection) pairs assigned equals the result of the row-greedy algorithm:
repeatedly pick the remaining identity whose distance to its nearest
detection is smallest (ties by earlier identity); it proposes its nearest
detection (ties by detection input order); assign the pair only if that
detection is unused and the distance is ≤ `maxDistance`, and in either case
never reconsider the identity — there is no fallback to its next-nearest
detection. -/
theorem C1_amended_match_eq_row_greedy (t : CentroidTracker)
    (dets : List Detection) (cam : String)
    (_h1 : activeFor t cam ≠ []) (_h2 : dets ≠ []) :
    matchPairs (distMatrix (activeFor t cam) dets) t.max_distance_sq =
      rowGreedyPairs (distMatrix (activeFor t cam) dets)
        t.max_distance_sq :=
  matchPairs_eq_rowGreedy _ _

/-- `C1` amended, witness at the concrete two-identity scenario. -/
theorem C1_amended_witness :
    matchPairs (distMatrix (activeFor trackerPair "cam1")
        [detNear, detMid]) trackerPair.max_distance_sq =
      rowGreedyPairs (distMatrix (activeFor trackerPair "cam1")
        [detNear, detMid]) trackerPair.max_distance_sq :=
  C1_amended_match_eq_row_greedy trackerPair [detNear, detMid] "cam1"
    (by decide) (by decide)
